import Mathlib

/-!
Verification development for the claude-recorder transcript ingestion pipeline.

Shallow embedding of:
- `src/parser.ts` (event parser: `parseTranscriptContent`, `parseEntry`,
  `parseTranscriptIncremental`),
- `src/storage.ts` (storage engine: schema, `insertMessage`, `upsertSession`),
- `src/watcher.ts` daemon (`processTranscript`, `scanForSessions`, poll loop).

Conventions of the embedding:
- A JSON value is modelled by the `Json` inductive (numbers as `Int`; the
  transcripts carry no floats that any claim touches).
- A transcript line is modelled by the outcome of `JSON.parse` on it:
  `Option TranscriptEntry`, where `none` stands for a line on which
  `JSON.parse` throws (the code catches that and skips the line).  The typed
  shape `TranscriptEntry` follows `src/types.ts`.
- JS `Date` round-tripping (`new Date(ts)` / `toISOString`) is not modelled:
  timestamps are carried verbatim as strings.  No claim depends on it.
- File bytes are `List Nat` (each < 256 for encoded data), and JS strings are
  `List Char` / `String`; `Buffer.byteLength(s, "utf-8")` is the length of
  `utf8Encode`, `buffer.subarray(pos)` is `List.drop pos`, and
  `String.prototype.slice(i)` is `jsSlice` (UTF-16 code-unit counting).
-/

/-! ## JSON values and `JSON.stringify` -/

mutual

inductive Json where
  | null : Json
  | bool (b : Bool) : Json
  | num (n : Int) : Json
  | str (s : String) : Json
  | arr (elems : JsonList) : Json
  | obj (fields : JsonFields) : Json
deriving DecidableEq

inductive JsonList where
  | nil : JsonList
  | cons (head : Json) (tail : JsonList) : JsonList
deriving DecidableEq

inductive JsonFields where
  | nil : JsonFields
  | cons (key : String) (val : Json) (tail : JsonFields) : JsonFields
deriving DecidableEq

end

def hexDigit (n : Nat) : String :=
  if n = 0 then "0" else if n = 1 then "1" else if n = 2 then "2"
  else if n = 3 then "3" else if n = 4 then "4" else if n = 5 then "5"
  else if n = 6 then "6" else if n = 7 then "7" else if n = 8 then "8"
  else if n = 9 then "9" else if n = 10 then "a" else if n = 11 then "b"
  else if n = 12 then "c" else if n = 13 then "d" else if n = 14 then "e"
  else "f"

/-- The string escaping performed by `JSON.stringify` on string values. -/
def jsonEscapeChar (c : Char) : String :=
  if c = '"' then "\\\""
  else if c = '\\' then "\\\\"
  else if c = '\n' then "\\n"
  else if c = '\r' then "\\r"
  else if c = '\t' then "\\t"
  else if c.toNat < 32 then "\\u00" ++ hexDigit (c.toNat / 16) ++ hexDigit (c.toNat % 16)
  else String.singleton c

def jsonEscape (s : String) : String :=
  String.join (s.toList.map jsonEscapeChar)

def jsonQuote (s : String) : String := "\"" ++ jsonEscape s ++ "\""

mutual

/-- Compact `JSON.stringify(v)`: elements and fields joined by `","`, no
whitespace; used by pass 1 for non-string `tool_result` payloads. -/
def jsonStringify : Json → String
  | .null => "null"
  | .bool true => "true"
  | .bool false => "false"
  | .num n => toString n
  | .str s => jsonQuote s
  | .arr es => "[" ++ jsonStringifyElems es ++ "]"
  | .obj fs => "\x7b" ++ jsonStringifyMembers fs ++ "\x7d"

def jsonStringifyElems : JsonList → String
  | .nil => ""
  | .cons e .nil => jsonStringify e
  | .cons e (.cons e2 tl) => jsonStringify e ++ "," ++ jsonStringifyElems (.cons e2 tl)

def jsonStringifyMembers : JsonFields → String
  | .nil => ""
  | .cons k v .nil => jsonQuote k ++ ":" ++ jsonStringify v
  | .cons k v (.cons k2 v2 tl) =>
      jsonQuote k ++ ":" ++ jsonStringify v ++ "," ++ jsonStringifyMembers (.cons k2 v2 tl)

end

mutual

/-- Pretty `JSON.stringify(v, null, 2)` at a given surrounding indent, as used
by `parseEntry` for `tool_use` inputs (two-space indent). -/
def jsonStringifyPrettyAux : String → Json → String
  | _, .null => "null"
  | _, .bool true => "true"
  | _, .bool false => "false"
  | _, .num n => toString n
  | _, .str s => jsonQuote s
  | _, .arr .nil => "[]"
  | ind, .arr (.cons e tl) =>
      "[\n" ++ jsonStringifyPrettyElems (ind ++ "  ") (.cons e tl) ++ "\n" ++ ind ++ "]"
  | _, .obj .nil => "\x7b\x7d"
  | ind, .obj (.cons k v tl) =>
      "\x7b\n" ++ jsonStringifyPrettyMembers (ind ++ "  ") (.cons k v tl) ++ "\n" ++ ind ++ "\x7d"

def jsonStringifyPrettyElems : String → JsonList → String
  | _, .nil => ""
  | ind, .cons e .nil => ind ++ jsonStringifyPrettyAux ind e
  | ind, .cons e (.cons e2 tl) =>
      ind ++ jsonStringifyPrettyAux ind e ++ ",\n" ++
        jsonStringifyPrettyElems ind (.cons e2 tl)

def jsonStringifyPrettyMembers : String → JsonFields → String
  | _, .nil => ""
  | ind, .cons k v .nil => ind ++ jsonQuote k ++ ": " ++ jsonStringifyPrettyAux ind v
  | ind, .cons k v (.cons k2 v2 tl) =>
      ind ++ jsonQuote k ++ ": " ++ jsonStringifyPrettyAux ind v ++ ",\n" ++
        jsonStringifyPrettyMembers ind (.cons k2 v2 tl)

end

/-- `JSON.stringify(v, null, 2)`. -/
def jsonStringifyPretty (v : Json) : String := jsonStringifyPrettyAux "" v

/-! ## Typed transcript model (from `src/types.ts`) -/

/-- A content block of an assistant message (`ContentBlock` in `types.ts`).
`other` stands for a block of any unrecognized `type` tag, which every switch
in the parser ignores. -/
inductive ContentBlock where
  | text (text : String) : ContentBlock
  | thinking (thinking : String) : ContentBlock
  | toolUse (id : String) (name : String) (input : Json) : ContentBlock
  | toolResult (toolUseId : String) (content : Json) : ContentBlock
  | other : ContentBlock
deriving DecidableEq

/-- `message.content`: a plain string for user turns, a block list for
assistant turns. -/
inductive MessageContent where
  | str (s : String) : MessageContent
  | blocks (bs : List ContentBlock) : MessageContent
deriving DecidableEq

structure MessageBody where
  role : String
  content : MessageContent
  model : Option String
deriving DecidableEq

/-- One parsed transcript line (`TranscriptEntry` in `types.ts`); only the
fields the parser reads are modelled.  `message` is optional because the code
guards with `if (!entry.message) return null`. -/
structure TranscriptEntry where
  type : String
  uuid : String
  sessionId : String
  timestamp : String
  cwd : String
  message : Option MessageBody
deriving DecidableEq

structure ParsedToolCall where
  id : String
  name : String
  input : String
  output : Option String
deriving DecidableEq

structure ParsedMessage where
  uuid : String
  sessionId : String
  timestamp : String
  role : String
  textContent : String
  thinkingContent : Option String
  toolCalls : List ParsedToolCall
  model : Option String
  cwd : String
deriving DecidableEq

/-! ## Event parser (from `src/parser.ts`) -/

/-- Insertion-ordered string map used for the `toolResults` `Map`:
`Map.prototype.set` overwrites the value of an existing key in place and
otherwise appends (a JS `Map` never holds a key twice). -/
def mapSet : List (String × String) → String → String → List (String × String)
  | [], k, v => [(k, v)]
  | p :: ps, k, v => if p.1 == k then (k, v) :: ps else p :: mapSet ps k v

/-- `Map.prototype.get`, as `Option`. -/
def mapGet? (m : List (String × String)) (k : String) : Option String :=
  (m.find? (fun p => p.1 == k)).map (fun p => p.2)

/-- `typeof block.content === "string" ? block.content : JSON.stringify(block.content)`. -/
def resolveResultContent : Json → String
  | .str s => s
  | j => jsonStringify j

/-- Pass 1, inner loop over one entry's content blocks: record every
`tool_result` block into the `toolResults` map. -/
def collectFromBlocks (acc : List (String × String)) (bs : List ContentBlock) :
    List (String × String) :=
  bs.foldl
    (fun a b =>
      match b with
      | .toolResult tid c => mapSet a tid (resolveResultContent c)
      | _ => a)
    acc

/-- Pass 1, one line: `entry.type === "assistant" && Array.isArray(entry.message?.content)`.
A `none` line is one on which `JSON.parse` threw; the `catch` skips it. -/
def collectFromLine (acc : List (String × String)) (l : Option TranscriptEntry) :
    List (String × String) :=
  match l with
  | none => acc
  | some e =>
    if e.type == "assistant" then
      match e.message with
      | some msg =>
        match msg.content with
        | .blocks bs => collectFromBlocks acc bs
        | .str _ => acc
      | none => acc
    else acc

/-- Pass 1 of `parseTranscriptContent`: collect tool results over all lines. -/
def collectToolResults (lines : List (Option TranscriptEntry)) : List (String × String) :=
  lines.foldl collectFromLine []

/-- Accumulator state of `parseEntry`'s block loop:
(textContent, thinkingContent, toolCalls). -/
def parseEntryStep (toolResults : List (String × String))
    (acc : String × Option String × List ParsedToolCall) (b : ContentBlock) :
    String × Option String × List ParsedToolCall :=
  match b with
  | .text t =>
      (acc.1 ++ (if acc.1 == "" then "" else "\n") ++ t, acc.2.1, acc.2.2)
  | .thinking t => (acc.1, some t, acc.2.2)
  | .toolUse id name input =>
      (acc.1, acc.2.1,
        acc.2.2 ++ [⟨id, name, jsonStringifyPretty input, mapGet? toolResults id⟩])
  | .toolResult _ _ => acc
  | .other => acc

/-- `parseEntry` from `src/parser.ts` (lines 61-108). -/
def parseEntry (entry : TranscriptEntry) (toolResults : List (String × String)) :
    Option ParsedMessage :=
  match entry.message with
  | none => none
  | some message =>
    let acc :=
      match message.content with
      | .str s => (s, (none : Option String), ([] : List ParsedToolCall))
      | .blocks bs => bs.foldl (parseEntryStep toolResults) ("", none, [])
    some
      { uuid := entry.uuid
        sessionId := entry.sessionId
        timestamp := entry.timestamp
        role := message.role
        textContent := acc.1
        thinkingContent := acc.2.1
        toolCalls := acc.2.2
        model := message.model
        cwd := entry.cwd }

/-- Pass 2, one line: skip parse failures and non-user/assistant entries,
otherwise append the built message. -/
def pass2Step (toolResults : List (String × String)) (msgs : List ParsedMessage)
    (l : Option TranscriptEntry) : List ParsedMessage :=
  match l with
  | none => msgs
  | some entry =>
    if entry.type == "user" || entry.type == "assistant" then
      match parseEntry entry toolResults with
      | some m => msgs ++ [m]
      | none => msgs
    else msgs

/-- `parseTranscriptContent` from `src/parser.ts` (lines 14-59): two passes
over the same lines.  The input is the per-line `JSON.parse` outcome of the
(nonempty) lines, in file order. -/
def parseTranscriptContent (lines : List (Option TranscriptEntry)) : List ParsedMessage :=
  let toolResults := collectToolResults lines
  lines.foldl (pass2Step toolResults) []

/-! ## Parser lemmas -/

/-- The `(tool_use_id, resolved content)` pairs contributed by a block list in
pass 1, in block order. -/
def blockResultPairs (bs : List ContentBlock) : List (String × String) :=
  bs.filterMap
    (fun b =>
      match b with
      | .toolResult tid c => some (tid, resolveResultContent c)
      | _ => none)

/-- The pairs contributed by one line in pass 1. -/
def lineResultPairs : Option TranscriptEntry → List (String × String)
  | none => []
  | some e =>
    if e.type == "assistant" then
      match e.message with
      | some msg =>
        match msg.content with
        | .blocks bs => blockResultPairs bs
        | .str _ => []
      | none => []
    else []

/-- All result pairs of a batch, in scan order. -/
def allResultPairs (lines : List (Option TranscriptEntry)) : List (String × String) :=
  (lines.map lineResultPairs).flatten

/-- The value of the last pair with the given key, if any (what repeated
`Map.set` leaves behind). -/
def lastAssoc? : List (String × String) → String → Option String
  | [], _ => none
  | p :: ps, x => (lastAssoc? ps x).or (if p.1 == x then some p.2 else none)

/-- Folding `mapSet` over a pair list. -/
def setFold (m : List (String × String)) (ps : List (String × String)) :
    List (String × String) :=
  ps.foldl (fun a p => mapSet a p.1 p.2) m

theorem mapGet?_nil (x : String) : mapGet? [] x = none := rfl

theorem mapGet?_cons (p : String × String) (ps : List (String × String)) (x : String) :
    mapGet? (p :: ps) x = if p.1 == x then some p.2 else mapGet? ps x := by
  cases h : p.1 == x <;> simp [mapGet?, List.find?, h]

theorem mapGet?_mapSet (m : List (String × String)) (k v x : String) :
    mapGet? (mapSet m k v) x = if k == x then some v else mapGet? m x := by
  induction m with
  | nil => cases h : k == x <;> simp [mapSet, mapGet?_cons, mapGet?_nil, h]
  | cons p ps ih =>
    by_cases hpk : p.1 = k
    · cases h : k == x <;>
        simp_all [mapSet, mapGet?_cons]
    · have hpk' : (p.1 == k) = false := by simp [hpk]
      by_cases hkx : k = x
      · subst hkx
        simp [mapSet, hpk', mapGet?_cons, ih]
      · cases hpx : p.1 == x <;> simp [mapSet, hpk', mapGet?_cons, hpx, ih, hkx]

theorem mapGet?_setFold (ps : List (String × String)) (m : List (String × String))
    (x : String) :
    mapGet? (setFold m ps) x = (lastAssoc? ps x).or (mapGet? m x) := by
  induction ps generalizing m with
  | nil => simp [setFold, lastAssoc?]
  | cons p ps ih =>
    have : setFold m (p :: ps) = setFold (mapSet m p.1 p.2) ps := by
      simp [setFold]
    rw [this, ih, mapGet?_mapSet, lastAssoc?, Option.or_assoc]
    cases h : p.1 == x <;> simp

theorem collectFromBlocks_eq (bs : List ContentBlock) (acc : List (String × String)) :
    collectFromBlocks acc bs = setFold acc (blockResultPairs bs) := by
  induction bs generalizing acc with
  | nil => rfl
  | cons b bs ih =>
    cases b <;>
      simp [collectFromBlocks, blockResultPairs, setFold, List.filterMap_cons] at * <;>
      apply ih

theorem collectFromLine_eq (l : Option TranscriptEntry) (acc : List (String × String)) :
    collectFromLine acc l = setFold acc (lineResultPairs l) := by
  cases l with
  | none => rfl
  | some e =>
    unfold collectFromLine lineResultPairs
    cases h : e.type == "assistant"
    · simp [h, setFold]
    · simp only [h, if_true]
      cases e.message with
      | none => simp [setFold]
      | some msg =>
        cases msg with
        | mk role content model =>
          cases content with
          | str s => simp [setFold]
          | blocks bs => simp [collectFromBlocks_eq]

theorem foldl_collectFromLine (lines : List (Option TranscriptEntry))
    (acc : List (String × String)) :
    lines.foldl collectFromLine acc = setFold acc (allResultPairs lines) := by
  induction lines generalizing acc with
  | nil => rfl
  | cons l ls ih =>
    rw [List.foldl_cons, ih, collectFromLine_eq]
    show setFold (setFold acc (lineResultPairs l)) (allResultPairs ls)
        = setFold acc (allResultPairs (l :: ls))
    have : allResultPairs (l :: ls) = lineResultPairs l ++ allResultPairs ls := by
      simp [allResultPairs]
    rw [this]
    simp [setFold, List.foldl_append]

theorem collectToolResults_eq (lines : List (Option TranscriptEntry)) :
    collectToolResults lines = setFold [] (allResultPairs lines) :=
  foldl_collectFromLine lines []

theorem lastAssoc?_eq_none (ps : List (String × String)) (x : String)
    (h : ps.filter (fun p => p.1 == x) = []) : lastAssoc? ps x = none := by
  induction ps with
  | nil => rfl
  | cons p ps ih =>
    cases hp : p.1 == x
    · simp only [List.filter_cons, hp] at h
      simp [lastAssoc?, hp, ih h]
    · simp [List.filter_cons, hp] at h

theorem lastAssoc?_eq_some (ps : List (String × String)) (x c : String)
    (h : (ps.filter (fun p => p.1 == x)).map (fun p => p.2) = [c]) :
    lastAssoc? ps x = some c := by
  induction ps with
  | nil => simp at h
  | cons p ps ih =>
    cases hp : p.1 == x
    · simp only [List.filter_cons, hp, cond_false] at h
      simp [lastAssoc?, hp, ih h]
    · simp only [List.filter_cons, hp, cond_true, List.map_cons] at h
      have h1 : p.2 = c := (List.cons_eq_cons.mp h).1
      have h2 : (ps.filter (fun p => p.1 == x)).map (fun p => p.2) = [] :=
        (List.cons_eq_cons.mp h).2
      have h3 : ps.filter (fun p => p.1 == x) = [] := by
        cases hf : ps.filter (fun p => p.1 == x) with
        | nil => rfl
        | cons q qs => rw [hf] at h2; simp at h2
      simp [lastAssoc?, hp, lastAssoc?_eq_none ps x h3, h1]

theorem parseEntryStep_preserves (tr : List (String × String)) (bs : List ContentBlock)
    (acc : String × Option String × List ParsedToolCall)
    (h : ∀ tc ∈ acc.2.2, tc.output = mapGet? tr tc.id) :
    ∀ tc ∈ (bs.foldl (parseEntryStep tr) acc).2.2, tc.output = mapGet? tr tc.id := by
  induction bs generalizing acc with
  | nil => exact h
  | cons b bs ih =>
    rw [List.foldl_cons]
    apply ih
    intro tc htc
    cases b with
    | text t => exact h tc htc
    | thinking t => exact h tc htc
    | toolResult tid c => exact h tc htc
    | other => exact h tc htc
    | toolUse id name input =>
      simp only [parseEntryStep, List.mem_append, List.mem_singleton] at htc
      rcases htc with htc | rfl
      · exact h tc htc
      · rfl

theorem parseEntry_toolCalls (tr : List (String × String)) (entry : TranscriptEntry)
    (m : ParsedMessage) (h : parseEntry entry tr = some m) :
    ∀ tc ∈ m.toolCalls, tc.output = mapGet? tr tc.id := by
  unfold parseEntry at h
  cases hmsg : entry.message with
  | none => rw [hmsg] at h; exact absurd h (by simp)
  | some msg =>
    rw [hmsg] at h
    simp only [Option.some.injEq] at h
    subst h
    cases hc : msg.content with
    | str s => simp [hc]
    | blocks bs =>
      simp only [hc]
      exact parseEntryStep_preserves tr bs ("", none, []) (by simp)

theorem mem_pass2 (tr : List (String × String)) (lines : List (Option TranscriptEntry))
    (m : ParsedMessage) (acc : List ParsedMessage)
    (h : m ∈ lines.foldl (pass2Step tr) acc) :
    m ∈ acc ∨ ∃ e, parseEntry e tr = some m := by
  induction lines generalizing acc with
  | nil => exact Or.inl h
  | cons l ls ih =>
    rw [List.foldl_cons] at h
    rcases ih _ h with h' | h'
    · cases l with
      | none => exact Or.inl h'
      | some entry =>
        simp only [pass2Step] at h'
        cases ht : (entry.type == "user" || entry.type == "assistant")
        · simp only [ht, Bool.false_eq_true, if_false] at h'
          exact Or.inl h'
        · simp only [ht, if_true] at h'
          cases hp : parseEntry entry tr with
          | none => simp only [hp] at h'; exact Or.inl h'
          | some m' =>
            simp only [hp, List.mem_append, List.mem_singleton] at h'
            rcases h' with h' | rfl
            · exact Or.inl h'
            · exact Or.inr ⟨entry, hp⟩
    · exact Or.inr h'

/-! ## Claims about the event parser -/

/-- Demo input for the malformed-line claim: a valid user line, an invalid
line, a valid assistant line (spec section 8 scenario). -/
def c6UserEntry : TranscriptEntry :=
  ⟨"user", "uuid-1", "sess", "2024-01-01T00:00:00Z", "/test",
    some ⟨"user", .str "Hi", none⟩⟩

def c6AssistantEntry : TranscriptEntry :=
  ⟨"assistant", "uuid-2", "sess", "2024-01-01T00:00:01Z", "/test",
    some ⟨"assistant", .blocks [.thinking "t1", .text "Hello!"], some "model-x"⟩⟩

def c6UserMsg : ParsedMessage :=
  ⟨"uuid-1", "sess", "2024-01-01T00:00:00Z", "user", "Hi", none, [], none, "/test"⟩

def c6AssistantMsg : ParsedMessage :=
  ⟨"uuid-2", "sess", "2024-01-01T00:00:01Z", "assistant", "Hello!", some "t1", [],
    some "model-x", "/test"⟩

/-- C6 (confirmed): `parseTranscriptContent` never aborts on a malformed
line — a line whose `JSON.parse` fails (`none`) is skipped in both passes and
parsing continues with the next line, leaving the output exactly that of the
batch without the bad line; in particular a batch of one invalid line
interleaved with two valid user/assistant entries yields exactly those two
messages, in original input-line order.  (Totality of the Lean function
renders the "returns normally" part of the claim.) -/
theorem parseTranscriptContent_skips_malformed :
    (∀ (pre post : List (Option TranscriptEntry)),
        parseTranscriptContent (pre ++ none :: post) = parseTranscriptContent (pre ++ post))
    ∧ parseTranscriptContent [some c6UserEntry, none, some c6AssistantEntry]
        = [c6UserMsg, c6AssistantMsg] := by
  constructor
  · intro pre post
    simp only [parseTranscriptContent]
    have hc : collectToolResults (pre ++ none :: post) = collectToolResults (pre ++ post) := by
      unfold collectToolResults
      rw [List.foldl_append, List.foldl_append, List.foldl_cons]
      rfl
    rw [hc]
    rw [List.foldl_append, List.foldl_append, List.foldl_cons]
    rfl
  · decide

/-- C10 (confirmed): within one batch, tool-result resolution is
order-independent: pass 1 collects every `tool_result` before pass 2 builds any
message, so an invocation whose matching result line appears *earlier* in the
batch still receives its output. -/
theorem toolResult_resolution_order_independent (x nm : String) (inp : Json)
    (c : String) (u1 u2 sid ts cwd mdl : String) :
    (parseTranscriptContent
        [some ⟨"assistant", u1, sid, ts, cwd,
            some ⟨"assistant", .blocks [.toolResult x (.str c)], some mdl⟩⟩,
         some ⟨"assistant", u2, sid, ts, cwd,
            some ⟨"assistant", .blocks [.toolUse x nm inp], some mdl⟩⟩]).map
        (fun m => m.toolCalls)
      = [[], [⟨x, nm, jsonStringifyPretty inp, some c⟩]] := by
  simp [parseTranscriptContent, collectToolResults, collectFromLine, collectFromBlocks,
    mapSet, mapGet?, resolveResultContent, pass2Step, parseEntry, parseEntryStep,
    List.find?]

/-- C7 (confirmed): every `ToolCall` built by a parse batch has
`output = ` the last matching `tool_result` content recorded by pass 1; hence
`output = none` when the batch holds no matching result, and `output = some c`
when the batch holds exactly one matching result with resolved content `c`. -/
theorem toolCall_output_resolved_within_batch (lines : List (Option TranscriptEntry))
    (m : ParsedMessage) (tc : ParsedToolCall)
    (hm : m ∈ parseTranscriptContent lines) (htc : tc ∈ m.toolCalls) :
    tc.output = lastAssoc? (allResultPairs lines) tc.id
    ∧ ((allResultPairs lines).filter (fun p => p.1 == tc.id) = [] → tc.output = none)
    ∧ (∀ c, ((allResultPairs lines).filter (fun p => p.1 == tc.id)).map (fun p => p.2)
          = [c] → tc.output = some c) := by
  have hout : tc.output = mapGet? (collectToolResults lines) tc.id := by
    simp only [parseTranscriptContent] at hm
    rcases mem_pass2 _ _ _ _ hm with h | ⟨e, he⟩
    · simp at h
    · exact parseEntry_toolCalls _ _ _ he tc htc
  have hkey : mapGet? (collectToolResults lines) tc.id
      = lastAssoc? (allResultPairs lines) tc.id := by
    rw [collectToolResults_eq, mapGet?_setFold, mapGet?_nil, Option.or_none]
  refine ⟨hout.trans hkey, fun hnil => ?_, fun c hone => ?_⟩
  · rw [hout, hkey, lastAssoc?_eq_none _ _ hnil]
  · rw [hout, hkey, lastAssoc?_eq_some _ _ _ hone]

def c7Input : Json := .obj (.cons "command" (.str "ls") .nil)

/-- Concrete batch for the tool-result claim: one assistant entry holding a
`tool_use` followed by its `tool_result` (shape of the repository's own
integration test). -/
def c7Lines : List (Option TranscriptEntry) :=
  [some ⟨"assistant", "uuid-2", "sess", "2024-01-01T00:00:01Z", "/p",
      some ⟨"assistant",
        .blocks [.text "Let me check.", .toolUse "t1" "Bash" c7Input,
          .toolResult "t1" (.str "file1.txt"), .text "Done."],
        some "model-x"⟩⟩]

def c7ToolCall : ParsedToolCall :=
  ⟨"t1", "Bash", jsonStringifyPretty c7Input, some "file1.txt"⟩

def c7Msg : ParsedMessage :=
  ⟨"uuid-2", "sess", "2024-01-01T00:00:01Z", "assistant", "Let me check.\nDone.",
    none, [c7ToolCall], some "model-x", "/p"⟩

theorem toolCall_output_resolved_within_batch_witness :
    (c7Msg ∈ parseTranscriptContent c7Lines) ∧ (c7ToolCall ∈ c7Msg.toolCalls)
    ∧ (c7ToolCall.output = lastAssoc? (allResultPairs c7Lines) c7ToolCall.id
       ∧ ((allResultPairs c7Lines).filter (fun p => p.1 == c7ToolCall.id) = []
            → c7ToolCall.output = none)
       ∧ (∀ c, ((allResultPairs c7Lines).filter (fun p => p.1 == c7ToolCall.id)).map
              (fun p => p.2) = [c] → c7ToolCall.output = some c)) :=
  ⟨by decide, by decide,
    toolCall_output_resolved_within_batch c7Lines c7Msg c7ToolCall (by decide) (by decide)⟩

/-! ## Storage engine (from `src/storage.ts`) -/

/-- One row of the `sessions` table (`initializeSchema`, lines 33-43):
`end_time`, `version`, `transcript_path` are nullable, `message_count`
defaults to 0. -/
structure SessionRow where
  id : String
  slug : String
  projectPath : String
  workingDir : String
  startTime : String
  endTime : Option String
  messageCount : Nat
  version : Option String
  transcriptPath : Option String
deriving DecidableEq

/-- One row of the `messages` table (lines 45-56); `uuid` carries a UNIQUE
constraint. -/
structure MessageRow where
  uuid : String
  sessionId : String
  timestamp : String
  role : String
  textContent : String
  thinkingContent : Option String
  model : Option String
  cwd : String
deriving DecidableEq

/-- One row of the `tool_calls` table (lines 58-68).  Note: the schema puts
*no* UNIQUE constraint on `tool_id` (only the autoincrement primary key and
unenforced foreign keys), which drives the duplicate-insert behaviour below. -/
structure ToolCallRow where
  toolId : String
  messageUuid : String
  sessionId : String
  name : String
  input : String
  output : Option String
deriving DecidableEq

/-- The mutable store: the three tables the ingestion path writes.  Rows are
kept in insertion order. -/
structure Db where
  sessions : List SessionRow
  messages : List MessageRow
  toolCalls : List ToolCallRow
deriving DecidableEq

def messageRowOf (m : ParsedMessage) : MessageRow :=
  ⟨m.uuid, m.sessionId, m.timestamp, m.role, m.textContent, m.thinkingContent,
    m.model, m.cwd⟩

def toolCallRowOf (messageUuid sessionId : String) (t : ParsedToolCall) : ToolCallRow :=
  ⟨t.id, messageUuid, sessionId, t.name, t.input, t.output⟩

/-- `insertMessage` (storage.ts lines 146-190).
1. `INSERT OR IGNORE INTO messages`: ignored exactly when the UNIQUE `uuid`
   constraint is violated, i.e. when a row with this uuid exists.
2. `INSERT OR IGNORE INTO tool_calls` for each nested tool call: the table has
   no UNIQUE constraint for OR IGNORE to hit (and foreign keys are not
   enabled by `getDatabase`), so each statement unconditionally appends a row.
3. `UPDATE sessions SET message_count = (SELECT COUNT(*) ...)` for the owning
   session id. -/
def insertMessage (m : ParsedMessage) (db : Db) : Db :=
  let messages :=
    if db.messages.any (fun r => r.uuid == m.uuid) then db.messages
    else db.messages ++ [messageRowOf m]
  let toolCalls := db.toolCalls ++ m.toolCalls.map (toolCallRowOf m.uuid m.sessionId)
  let sessions := db.sessions.map (fun s =>
    if s.id == m.sessionId then
      { s with messageCount := (messages.filter (fun r => r.sessionId == m.sessionId)).length }
    else s)
  ⟨sessions, messages, toolCalls⟩

/-- `upsertSession` (storage.ts lines 105-136): `INSERT ... ON CONFLICT(id) DO
UPDATE SET slug, project_path, working_dir, version, transcript_path` — the
update path touches exactly those five columns. -/
def upsertSession (sessionId slug projectPath workingDir startTime version
    transcriptPath : String) (db : Db) : Db :=
  if db.sessions.any (fun s => s.id == sessionId) then
    { db with
        sessions := db.sessions.map (fun s =>
          if s.id == sessionId then
            { s with
                slug := slug
                projectPath := projectPath
                workingDir := workingDir
                version := some version
                transcriptPath := some transcriptPath }
          else s) }
  else
    { db with
        sessions := db.sessions ++
          [⟨sessionId, slug, projectPath, workingDir, startTime, none, 0,
            some version, some transcriptPath⟩] }

/-- `endSession` (storage.ts lines 138-144): `UPDATE sessions SET end_time = ?
WHERE id = ?`. -/
def endSession (sessionId endTime : String) (db : Db) : Db :=
  { db with
      sessions := db.sessions.map (fun s =>
        if s.id == sessionId then { s with endTime := some endTime } else s) }

/-! ## Claims about the storage engine -/

def c2ToolCall : ParsedToolCall := ⟨"t1", "Bash", "input-payload", some "out"⟩

def c2Msg : ParsedMessage :=
  ⟨"u1", "s1", "2024-01-01T00:00:00Z", "assistant", "text", none, [c2ToolCall],
    some "model-x", "/p"⟩

def c2Db : Db :=
  ⟨[⟨"s1", "slug", "/proj", "/wd", "2024-01-01T00:00:00Z", none, 0, some "1.0",
      some "/t.jsonl"⟩], [], []⟩

/-- C2 (code_bug): re-inserting a message with an already-stored uuid does
leave the message table unchanged, but its nested tool call is appended
*again*: `INSERT OR IGNORE` on `tool_calls` has no UNIQUE constraint on
`tool_id` to conflict with, so the second call produces a duplicate
`tool_calls` row and the store is not left unchanged, contradicting the
claimed tool-call idempotence. -/
theorem insertMessage_duplicate_duplicates_toolCalls :
    (insertMessage c2Msg (insertMessage c2Msg c2Db)).messages
        = (insertMessage c2Msg c2Db).messages
    ∧ (insertMessage c2Msg c2Db).toolCalls.length = 1
    ∧ (insertMessage c2Msg (insertMessage c2Msg c2Db)).toolCalls.length = 2
    ∧ (insertMessage c2Msg (insertMessage c2Msg c2Db)).toolCalls.map
        (fun r => r.toolId) = ["t1", "t1"]
    ∧ insertMessage c2Msg (insertMessage c2Msg c2Db) ≠ insertMessage c2Msg c2Db := by
  decide

theorem insertMessage_messages_of_present (m : ParsedMessage) (db : Db)
    (h : db.messages.any (fun r => r.uuid == m.uuid) = true) :
    (insertMessage m db).messages = db.messages := by
  simp only [insertMessage, h, if_true]

theorem insertMessage_messages_of_absent (m : ParsedMessage) (db : Db)
    (h : db.messages.any (fun r => r.uuid == m.uuid) = false) :
    (insertMessage m db).messages = db.messages ++ [messageRowOf m] := by
  simp only [insertMessage, h, Bool.false_eq_true, if_false]

/-- C8 (confirmed): inserting two messages with the same uuid (possibly
different payloads) stores exactly one message row, with the first-seen
content; the second insert neither overwrites nor merges the message row (and
`insertMessage` is total — a duplicate is not an error). -/
theorem insertMessage_uuid_first_wins (db : Db) (m1 m2 : ParsedMessage)
    (huuid : m2.uuid = m1.uuid)
    (hfresh : db.messages.any (fun r => r.uuid == m1.uuid) = false) :
    (insertMessage m2 (insertMessage m1 db)).messages = (insertMessage m1 db).messages
    ∧ (insertMessage m1 db).messages = db.messages ++ [messageRowOf m1]
    ∧ (insertMessage m2 (insertMessage m1 db)).messages.filter
        (fun r => r.uuid == m1.uuid) = [messageRowOf m1] := by
  have h1 : (insertMessage m1 db).messages = db.messages ++ [messageRowOf m1] :=
    insertMessage_messages_of_absent m1 db hfresh
  have hall : ∀ r ∈ db.messages, ¬(r.uuid == m1.uuid) = true := by
    intro r hr
    exact (List.any_eq_false.mp hfresh) r hr
  have h2 : (insertMessage m1 db).messages.any (fun r => r.uuid == m2.uuid) = true := by
    rw [h1, huuid]
    simp [messageRowOf]
  have h3 : (insertMessage m2 (insertMessage m1 db)).messages
      = (insertMessage m1 db).messages :=
    insertMessage_messages_of_present m2 (insertMessage m1 db) h2
  refine ⟨h3, h1, ?_⟩
  rw [h3, h1, List.filter_append]
  have h4 : db.messages.filter (fun r => r.uuid == m1.uuid) = [] :=
    List.filter_eq_nil_iff.mpr hall
  rw [h4]
  simp [messageRowOf]

def c8Db : Db := ⟨[⟨"s1", "slug", "/proj", "/wd", "t0", none, 0, none, none⟩], [], []⟩

def c8Msg1 : ParsedMessage :=
  ⟨"u1", "s1", "t1", "user", "first payload", none, [], none, "/p"⟩

def c8Msg2 : ParsedMessage :=
  ⟨"u1", "s1", "t2", "user", "second payload", none, [], none, "/p"⟩

theorem insertMessage_uuid_first_wins_witness :
    (c8Msg2.uuid = c8Msg1.uuid)
    ∧ (c8Db.messages.any (fun r => r.uuid == c8Msg1.uuid) = false)
    ∧ ((insertMessage c8Msg2 (insertMessage c8Msg1 c8Db)).messages
          = (insertMessage c8Msg1 c8Db).messages
       ∧ (insertMessage c8Msg1 c8Db).messages = c8Db.messages ++ [messageRowOf c8Msg1]
       ∧ (insertMessage c8Msg2 (insertMessage c8Msg1 c8Db)).messages.filter
            (fun r => r.uuid == c8Msg1.uuid) = [messageRowOf c8Msg1]) :=
  ⟨by decide, by decide,
    insertMessage_uuid_first_wins c8Db c8Msg1 c8Msg2 (by decide) (by decide)⟩

/-- The record update applied by `upsertSession`'s conflict branch. -/
def sessionUpdateOf (slug projectPath workingDir version transcriptPath : String)
    (s : SessionRow) : SessionRow :=
  { s with
      slug := slug
      projectPath := projectPath
      workingDir := workingDir
      version := some version
      transcriptPath := some transcriptPath }

/-- C9 (confirmed): for a session id already present, `upsertSession` takes
the update path, which rewrites only slug, project path, working directory,
version and transcript path; `end_time`, `message_count` (and `start_time`) of
every stored session are unchanged, as are the other tables. -/
theorem upsertSession_update_frame (db : Db)
    (sessionId slug projectPath workingDir startTime version transcriptPath : String)
    (h : db.sessions.any (fun s => s.id == sessionId) = true) :
    (upsertSession sessionId slug projectPath workingDir startTime version
        transcriptPath db).sessions
      = db.sessions.map (fun s =>
          if s.id == sessionId then
            sessionUpdateOf slug projectPath workingDir version transcriptPath s
          else s)
    ∧ (upsertSession sessionId slug projectPath workingDir startTime version
        transcriptPath db).sessions.map (fun s => s.endTime)
      = db.sessions.map (fun s => s.endTime)
    ∧ (upsertSession sessionId slug projectPath workingDir startTime version
        transcriptPath db).sessions.map (fun s => s.messageCount)
      = db.sessions.map (fun s => s.messageCount)
    ∧ (upsertSession sessionId slug projectPath workingDir startTime version
        transcriptPath db).sessions.map (fun s => s.startTime)
      = db.sessions.map (fun s => s.startTime)
    ∧ (upsertSession sessionId slug projectPath workingDir startTime version
        transcriptPath db).messages = db.messages
    ∧ (upsertSession sessionId slug projectPath workingDir startTime version
        transcriptPath db).toolCalls = db.toolCalls := by
  have hform : (upsertSession sessionId slug projectPath workingDir startTime version
      transcriptPath db).sessions
      = db.sessions.map (fun s =>
          if s.id == sessionId then
            sessionUpdateOf slug projectPath workingDir version transcriptPath s
          else s) := by
    simp only [upsertSession, h, if_true, sessionUpdateOf]
  refine ⟨hform, ?_, ?_, ?_, ?_, ?_⟩
  · rw [hform, List.map_map]
    apply List.map_congr_left
    intro s _
    by_cases hs : s.id = sessionId <;> simp [hs, sessionUpdateOf]
  · rw [hform, List.map_map]
    apply List.map_congr_left
    intro s _
    by_cases hs : s.id = sessionId <;> simp [hs, sessionUpdateOf]
  · rw [hform, List.map_map]
    apply List.map_congr_left
    intro s _
    by_cases hs : s.id = sessionId <;> simp [hs, sessionUpdateOf]
  · simp only [upsertSession, h, if_true]
  · simp only [upsertSession, h, if_true]

def c9Db : Db :=
  ⟨[⟨"s1", "old-slug", "/old", "/old-wd", "t0", some "t9", 5, some "0.9",
      some "/old.jsonl"⟩], [], []⟩

theorem upsertSession_update_frame_witness :
    (c9Db.sessions.any (fun s => s.id == "s1") = true)
    ∧ ((upsertSession "s1" "new-slug" "/new" "/new-wd" "t1" "1.0" "/new.jsonl"
          c9Db).sessions
        = c9Db.sessions.map (fun s =>
            if s.id == "s1" then
              sessionUpdateOf "new-slug" "/new" "/new-wd" "1.0" "/new.jsonl" s
            else s)
       ∧ (upsertSession "s1" "new-slug" "/new" "/new-wd" "t1" "1.0" "/new.jsonl"
            c9Db).sessions.map (fun s => s.endTime)
          = c9Db.sessions.map (fun s => s.endTime)
       ∧ (upsertSession "s1" "new-slug" "/new" "/new-wd" "t1" "1.0" "/new.jsonl"
            c9Db).sessions.map (fun s => s.messageCount)
          = c9Db.sessions.map (fun s => s.messageCount)
       ∧ (upsertSession "s1" "new-slug" "/new" "/new-wd" "t1" "1.0" "/new.jsonl"
            c9Db).sessions.map (fun s => s.startTime)
          = c9Db.sessions.map (fun s => s.startTime)
       ∧ (upsertSession "s1" "new-slug" "/new" "/new-wd" "t1" "1.0" "/new.jsonl"
            c9Db).messages = c9Db.messages
       ∧ (upsertSession "s1" "new-slug" "/new" "/new-wd" "t1" "1.0" "/new.jsonl"
            c9Db).toolCalls = c9Db.toolCalls) :=
  ⟨by decide,
    upsertSession_update_frame c9Db "s1" "new-slug" "/new" "/new-wd" "t1" "1.0"
      "/new.jsonl" (by decide)⟩

/-! ## Byte-offset handling: UTF-8 encoding / decoding -/

/-- Standard UTF-8 encoding of one scalar value. -/
def utf8EncodeChar (c : Char) : List Nat :=
  let v := c.toNat
  if v < 0x80 then [v]
  else if v < 0x800 then [0xC0 + v / 64, 0x80 + v % 64]
  else if v < 0x10000 then [0xE0 + v / 4096, 0x80 + (v / 64) % 64, 0x80 + v % 64]
  else [0xF0 + v / 262144, 0x80 + (v / 4096) % 64, 0x80 + (v / 64) % 64, 0x80 + v % 64]

/-- The UTF-8 bytes of a string; `(utf8Encode s).length` is
`Buffer.byteLength(s, "utf-8")`. -/
def utf8Encode : List Char → List Nat
  | [] => []
  | c :: cs => utf8EncodeChar c ++ utf8Encode cs

/-- UTF-8 decoding state machine (pending continuation count and accumulated
scalar).  Lenient — it does not reject overlong forms or surrogates, and on
invalid input it returns `none` where Node's `Buffer.toString("utf-8")` would
substitute U+FFFD; the theorems only decode well-formed byte runs, where the
two agree. -/
def utf8DecodeAux : List Nat → Option (Nat × Nat) → Option (List Char)
  | [], none => some []
  | [], some _ => none
  | b :: bs, none =>
    if b < 0x80 then (utf8DecodeAux bs none).map (fun cs => Char.ofNat b :: cs)
    else if b < 0xC2 then none
    else if b < 0xE0 then utf8DecodeAux bs (some (1, b - 0xC0))
    else if b < 0xF0 then utf8DecodeAux bs (some (2, b - 0xE0))
    else if b < 0xF5 then utf8DecodeAux bs (some (3, b - 0xF0))
    else none
  | b :: bs, some kacc =>
    if b < 0x80 then none
    else if b < 0xC0 then
      if kacc.1 ≤ 1 then
        (utf8DecodeAux bs none).map (fun cs => Char.ofNat (kacc.2 * 64 + (b - 0x80)) :: cs)
      else utf8DecodeAux bs (some (kacc.1 - 1, kacc.2 * 64 + (b - 0x80)))
    else none

def utf8Decode (bs : List Nat) : Option (List Char) := utf8DecodeAux bs none

theorem utf8DecodeAux_encodeChar (c : Char) (bs : List Nat) :
    utf8DecodeAux (utf8EncodeChar c ++ bs) none
      = (utf8DecodeAux bs none).map (fun cs => c :: cs) := by
  have hofn : Char.ofNat c.toNat = c := Char.ofNat_toNat c
  have hv : c.toNat < 1114112 := by
    rcases c.valid with h | ⟨h1, h2⟩
    · exact Nat.lt_trans h (by norm_num)
    · exact h2
  by_cases h1 : c.toNat < 0x80
  · have e1 : utf8EncodeChar c = [c.toNat] := by
      simp only [utf8EncodeChar, if_pos h1]
    rw [e1, List.cons_append, List.nil_append]
    rw [utf8DecodeAux]
    rw [if_pos h1, hofn]
  · by_cases h2 : c.toNat < 0x800
    · have e1 : utf8EncodeChar c = [0xC0 + c.toNat / 64, 0x80 + c.toNat % 64] := by
        simp only [utf8EncodeChar, if_neg h1, if_pos h2]
      rw [e1]
      show utf8DecodeAux ((0xC0 + c.toNat / 64) :: (0x80 + c.toNat % 64) :: bs) none = _
      rw [utf8DecodeAux]
      rw [if_neg (by omega), if_neg (by omega), if_pos (by omega)]
      rw [utf8DecodeAux]
      rw [if_neg (by omega), if_pos (by omega), if_pos (by norm_num)]
      have harith : (0xC0 + c.toNat / 64 - 0xC0) * 64 + (0x80 + c.toNat % 64 - 0x80)
          = c.toNat := by omega
      rw [harith, hofn]
    · by_cases h3 : c.toNat < 0x10000
      · have e1 : utf8EncodeChar c
            = [0xE0 + c.toNat / 4096, 0x80 + (c.toNat / 64) % 64, 0x80 + c.toNat % 64] := by
          simp only [utf8EncodeChar, if_neg h1, if_neg h2, if_pos h3]
        rw [e1]
        show utf8DecodeAux ((0xE0 + c.toNat / 4096) :: (0x80 + (c.toNat / 64) % 64)
            :: (0x80 + c.toNat % 64) :: bs) none = _
        rw [utf8DecodeAux]
        rw [if_neg (by omega), if_neg (by omega), if_neg (by omega), if_pos (by omega)]
        rw [utf8DecodeAux]
        rw [if_neg (by omega), if_pos (by omega), if_neg (by norm_num)]
        rw [utf8DecodeAux]
        rw [if_neg (by omega), if_pos (by omega), if_pos (by norm_num)]
        have harith : ((0xE0 + c.toNat / 4096 - 0xE0) * 64
              + (0x80 + (c.toNat / 64) % 64 - 0x80)) * 64
              + (0x80 + c.toNat % 64 - 0x80) = c.toNat := by omega
        rw [harith, hofn]
      · have e1 : utf8EncodeChar c
            = [0xF0 + c.toNat / 262144, 0x80 + (c.toNat / 4096) % 64,
               0x80 + (c.toNat / 64) % 64, 0x80 + c.toNat % 64] := by
          simp only [utf8EncodeChar, if_neg h1, if_neg h2, if_neg h3]
        rw [e1]
        show utf8DecodeAux ((0xF0 + c.toNat / 262144) :: (0x80 + (c.toNat / 4096) % 64)
            :: (0x80 + (c.toNat / 64) % 64) :: (0x80 + c.toNat % 64) :: bs) none = _
        rw [utf8DecodeAux]
        rw [if_neg (by omega), if_neg (by omega), if_neg (by omega), if_neg (by omega),
          if_pos (by omega)]
        rw [utf8DecodeAux]
        rw [if_neg (by omega), if_pos (by omega), if_neg (by norm_num)]
        rw [utf8DecodeAux]
        rw [if_neg (by omega), if_pos (by omega), if_neg (by norm_num)]
        rw [utf8DecodeAux]
        rw [if_neg (by omega), if_pos (by omega), if_pos (by norm_num)]
        have harith : (((0xF0 + c.toNat / 262144 - 0xF0) * 64
              + (0x80 + (c.toNat / 4096) % 64 - 0x80)) * 64
              + (0x80 + (c.toNat / 64) % 64 - 0x80)) * 64
              + (0x80 + c.toNat % 64 - 0x80) = c.toNat := by omega
        rw [harith, hofn]

theorem utf8Decode_encode (cs : List Char) : utf8Decode (utf8Encode cs) = some cs := by
  induction cs with
  | nil => rfl
  | cons c cs ih =>
    show utf8DecodeAux (utf8EncodeChar c ++ utf8Encode cs) none = _
    rw [utf8DecodeAux_encodeChar]
    rw [show utf8DecodeAux (utf8Encode cs) none = utf8Decode (utf8Encode cs) from rfl, ih]
    rfl

theorem utf8Encode_append (p r : List Char) :
    utf8Encode (p ++ r) = utf8Encode p ++ utf8Encode r := by
  induction p with
  | nil => rfl
  | cons c cs ih => simp [utf8Encode, ih]

/-! ## Incremental slicing: daemon `processTranscript` vs
`parseTranscriptIncremental` -/

/-- Number of UTF-16 code units a character occupies in a JS string. -/
def utf16Len (c : Char) : Nat := if c.toNat < 0x10000 then 1 else 2

/-- `String.prototype.slice(i)`: drops the first `i` UTF-16 code units.  (When
`i` lands inside a surrogate pair JS keeps a lone surrogate; the model drops
the whole character — no theorem exercises that corner.) -/
def jsSlice : List Char → Nat → List Char
  | s, 0 => s
  | [], _ + 1 => []
  | c :: cs, n + 1 => jsSlice cs (n + 1 - utf16Len c)

/-- `parseTranscriptIncremental` (parser.ts lines 111-124), text fed to
`parseTranscriptContent`: the file is read and *decoded*, then sliced with
`content.slice(fromByte)` — a JS character slice applied to a byte offset. -/
def parseTranscriptIncrementalInput (content : List Char) (fromByte : Nat) : List Char :=
  jsSlice content fromByte

/-- `parseTranscriptIncremental`, returned `newPosition`:
`Buffer.byteLength(content, "utf-8")` (parser.ts line 122) — a *byte* count,
which `watcher`-style callers store via `setFilePosition` and pass back as
`fromByte`. -/
def parseTranscriptIncrementalNewPos (content : List Char) : Nat :=
  (utf8Encode content).length

/-- Daemon `processTranscript` (watcher.ts lines 308-339), stored offset after
one run: unchanged when the file has not grown past the stored position,
otherwise the full byte length at read time (`setFilePosition(path, currentSize)`). -/
def processTranscriptNewPos (position : Nat) (fileBytes : List Nat) : Nat :=
  if fileBytes.length ≤ position then position else fileBytes.length

/-- Daemon `processTranscript`, text fed to the parser by one run:
`buffer.subarray(position).toString("utf-8")`; `none` when the size check
stops the run before parsing. -/
def processTranscriptInput (position : Nat) (fileBytes : List Nat) : Option (List Char) :=
  if fileBytes.length ≤ position then none
  else utf8Decode (fileBytes.drop position)

/-- C1 (code_bug): the daemon's `processTranscript` does slice strictly by
byte offset: for *every* split of the content, dropping
`byteLength(processed)` bytes from the encoded file yields exactly the bytes
of the untouched remainder, which decode to exactly that remainder.  But the
claim also covers `parseTranscriptIncremental`, and that entry point applies
the stored byte offset as a JS character index (`content.slice(fromByte)`):
on the file "é\nX" with stored offset 3 = byteLength("é\n") it feeds the
parser the empty string instead of the remainder "X" — appended content is
lost whenever the processed prefix contains multi-byte characters. -/
theorem byte_slice_exact_but_incremental_slices_chars (processed rest : List Char) :
    ((utf8Encode (processed ++ rest)).drop (utf8Encode processed).length
        = utf8Encode rest
      ∧ utf8Decode ((utf8Encode (processed ++ rest)).drop (utf8Encode processed).length)
          = some rest
      ∧ processTranscriptInput (utf8Encode processed).length
          (utf8Encode (processed ++ ['X'])) = some ['X'])
    ∧ (parseTranscriptIncrementalNewPos ['é', '\n'] = 3
       ∧ parseTranscriptIncrementalInput (['é', '\n'] ++ ['X']) 3 = []
       ∧ ([] : List Char) ≠ ['X']) := by
  have hdrop : ∀ r : List Char,
      (utf8Encode (processed ++ r)).drop (utf8Encode processed).length = utf8Encode r := by
    intro r
    rw [utf8Encode_append, List.drop_left]
  refine ⟨⟨hdrop rest, ?_, ?_⟩, by decide, by decide, by decide⟩
  · rw [hdrop rest, utf8Decode_encode]
  · rw [processTranscriptInput]
    have hlen : (utf8Encode (processed ++ ['X'])).length
        = (utf8Encode processed).length + 1 := by
      rw [utf8Encode_append, List.length_append]
      rfl
    rw [if_neg (by omega), hdrop ['X']]
    decide

/-- JS `String.prototype.trim` whitespace test, restricted to the forms that
occur in transcripts. -/
def jsWhitespace (c : Char) : Bool :=
  c == ' ' || c == '\n' || c == '\t' || c == '\r'

/-- `content.trim()`. -/
def jsTrim (s : List Char) : List Char :=
  ((s.dropWhile jsWhitespace).reverse.dropWhile jsWhitespace).reverse

def splitNewlineAux : List Char → List Char → List (List Char)
  | [], acc => [acc.reverse]
  | c :: cs, acc =>
    if c = '\n' then acc.reverse :: splitNewlineAux cs []
    else splitNewlineAux cs (c :: acc)

/-- `content.split("\n")`. -/
def splitNewline (s : List Char) : List (List Char) := splitNewlineAux s []

/-- `content.trim().split("\n").filter(Boolean)` — the line splitting at the
top of `parseTranscriptContent` (parser.ts line 15); each resulting line is
then given to `JSON.parse`. -/
def splitLines (s : List Char) : List (List Char) :=
  (splitNewline (jsTrim s)).filter (fun l => !l.isEmpty)

/-- C3 (code_bug): take a poll that reads the file mid-write, as bytes of
"alpha\npar" where "par" is the beginning of the eventual line "partial".  The
run hands the parser the lines "alpha" and "par" ("par" fails `JSON.parse`
and is skipped) and then advances the stored offset to the *full* length 9 —
strictly past byte 6 where the incomplete trailing line starts.  Once the
writer completes the file to "alpha\npartial\n", the next run decodes only the
bytes from offset 9, i.e. "tial\n", whose only line is "tial": the completed
line "partial" is never fed to the parser, so its entry is permanently lost —
the opposite of the claimed not-advancing-past behaviour. -/
theorem offset_advances_past_incomplete_trailing_line :
    processTranscriptNewPos 0 (utf8Encode "alpha\npar".toList) = 9
    ∧ 6 < processTranscriptNewPos 0 (utf8Encode "alpha\npar".toList)
    ∧ processTranscriptInput 0 (utf8Encode "alpha\npar".toList)
        = some "alpha\npar".toList
    ∧ splitLines "alpha\npar".toList = ["alpha".toList, "par".toList]
    ∧ processTranscriptInput 9 (utf8Encode "alpha\npartial\n".toList)
        = some "tial\n".toList
    ∧ splitLines "tial\n".toList = ["tial".toList]
    ∧ "partial".toList ∉ splitLines "tial\n".toList := by
  decide

/-! ## Ingestion daemon: session scan and poll loop (watcher.ts daemon) -/

structure WatchedSession where
  sessionId : String
  transcriptPath : String
  projectPath : String
deriving DecidableEq

/-- Observable calls made by one `scanForSessions` tick:
`started` = a new registry marker is discovered (session upserted, watching
begins), `processed` = one `processTranscript` call, `ended` = one
`endSession` call. -/
inductive DaemonEvent where
  | started (sessionId : String) : DaemonEvent
  | processed (sessionId : String) : DaemonEvent
  | ended (sessionId : String) : DaemonEvent
deriving DecidableEq, BEq

/-- First loop of `scanForSessions` (watcher.ts lines 350-393): every marker
file not yet in `watchedSessions` is discovered.  `discover` abstracts the
`try` body — reading the marker file, checking the transcript exists and
reading its metadata; `none` models a missing transcript or a read error,
which the loop skips with `continue`.  On success the session is upserted,
added to the watch map, and given an initial `processTranscript`. -/
def discoverNew (discover : String → Option WatchedSession) :
    List String → List (String × WatchedSession) →
      List (String × WatchedSession) × List DaemonEvent
  | [], watched => (watched, [])
  | f :: fs, watched =>
    if watched.any (fun p => p.1 == f) then discoverNew discover fs watched
    else
      match discover f with
      | none => discoverNew discover fs watched
      | some s =>
        let r := discoverNew discover fs (watched ++ [(f, s)])
        (r.1, .started f :: .processed f :: r.2)

/-- Second loop of `scanForSessions` (lines 396-404): every watched session
whose registry marker has vanished gets one final `processTranscript`, one
`endSession`, and is deleted from the watch map. -/
def finalizeGone (files : List String) :
    List (String × WatchedSession) →
      List (String × WatchedSession) × List DaemonEvent
  | [] => ([], [])
  | (sid, s) :: rest =>
    let r := finalizeGone files rest
    if files.contains sid then ((sid, s) :: r.1, r.2)
    else (r.1, .processed sid :: .ended sid :: r.2)

/-- One `scanForSessions` tick (watcher.ts lines 341-405): discover new
markers, then finalize watched sessions whose marker is gone.  `files` is
`readdirSync(SESSIONS_DIR)` — the registry marker names (= session ids). -/
def scanForSessions (files : List String) (discover : String → Option WatchedSession)
    (watched : List (String × WatchedSession)) :
    List (String × WatchedSession) × List DaemonEvent :=
  let d := discoverNew discover files watched
  let f := finalizeGone files d.1
  (f.1, d.2 ++ f.2)

theorem ended_beq_ended (a b : String) :
    (DaemonEvent.ended a == DaemonEvent.ended b) = (a == b) := rfl

theorem processed_beq_processed (a b : String) :
    (DaemonEvent.processed a == DaemonEvent.processed b) = (a == b) := rfl

theorem processed_beq_ended (a b : String) :
    (DaemonEvent.processed a == DaemonEvent.ended b) = false := rfl

theorem ended_beq_processed (a b : String) :
    (DaemonEvent.ended a == DaemonEvent.processed b) = false := rfl

theorem started_beq_ended (a b : String) :
    (DaemonEvent.started a == DaemonEvent.ended b) = false := rfl

theorem started_beq_processed (a b : String) :
    (DaemonEvent.started a == DaemonEvent.processed b) = false := rfl

theorem beq_false_symm (a b : String) (h : (a == b) = false) : (b == a) = false := by
  simp only [beq_eq_false_iff_ne] at *
  exact fun hh => h hh.symm

/-- Discovery leaves the watch-map multiplicity of an id that is *not* among
the registry files unchanged, and emits no `processed`/`ended` event for it. -/
theorem discoverNew_frame (discover : String → Option WatchedSession)
    (files : List String) (watched : List (String × WatchedSession)) (id : String)
    (hgone : files.contains id = false) :
    ((discoverNew discover files watched).1.countP (fun p => p.1 == id)
        = watched.countP (fun p => p.1 == id))
    ∧ ((discoverNew discover files watched).2.countP
        (fun e => e == DaemonEvent.ended id) = 0)
    ∧ ((discoverNew discover files watched).2.countP
        (fun e => e == DaemonEvent.processed id) = 0) := by
  induction files generalizing watched with
  | nil => simp [discoverNew]
  | cons f fs ih =>
    have hcons : (id == f || fs.contains id) = false := by
      rw [← List.contains_cons]
      exact hgone
    have hidf : (id == f) = false := by
      cases h : id == f
      · rfl
      · rw [h] at hcons; simp at hcons
    have hfid : (f == id) = false := beq_false_symm id f hidf
    have hfs : fs.contains id = false := by
      cases h : fs.contains id
      · rfl
      · rw [h] at hcons; simp at hcons
    cases hw : watched.any (fun p => p.1 == f)
    · simp only [discoverNew, hw, Bool.false_eq_true, if_false]
      cases hd : discover f with
      | none => exact ih watched hfs
      | some s =>
        have ihs := ih (watched ++ [(f, s)]) hfs
        refine ⟨?_, ?_, ?_⟩
        · rw [ihs.1, List.countP_append]
          simp [hfid]
        · simp only [List.countP_cons, started_beq_ended, ended_beq_ended,
            processed_beq_ended, ihs.2.1]
          simp
        · simp only [List.countP_cons, started_beq_processed,
            processed_beq_processed, ihs.2.2, hfid]
          simp
    · simp only [discoverNew, hw, if_true]
      exact ih watched hfs

/-- Finalization calls `processTranscript` and `endSession` once per watch-map
occurrence of an id whose marker is gone, and removes it from the map. -/
theorem finalizeGone_counts (files : List String)
    (watched : List (String × WatchedSession)) (id : String)
    (hgone : files.contains id = false) :
    ((finalizeGone files watched).2.countP (fun e => e == DaemonEvent.ended id)
        = watched.countP (fun p => p.1 == id))
    ∧ ((finalizeGone files watched).2.countP (fun e => e == DaemonEvent.processed id)
        = watched.countP (fun p => p.1 == id))
    ∧ ((finalizeGone files watched).1.any (fun p => p.1 == id) = false) := by
  induction watched with
  | nil => simp [finalizeGone]
  | cons p rest ih =>
    obtain ⟨sid, s⟩ := p
    by_cases hsid : sid = id
    · subst hsid
      have : files.contains sid = false := hgone
      simp only [finalizeGone, this, Bool.false_eq_true, if_false]
      refine ⟨?_, ?_, ?_⟩
      · simp only [List.countP_cons, processed_beq_ended, ended_beq_ended, ih.1]
        simp
      · simp only [List.countP_cons, processed_beq_processed, ended_beq_processed, ih.2.1]
        simp
      · exact ih.2.2
    · have hne : (sid == id) = false := by simp [hsid]
      cases hc : files.contains sid
      · simp only [finalizeGone, hc, Bool.false_eq_true, if_false]
        refine ⟨?_, ?_, ?_⟩
        · simp only [List.countP_cons, processed_beq_ended, ended_beq_ended, hne, ih.1]
          simp
        · simp only [List.countP_cons, processed_beq_processed, ended_beq_processed,
            hne, ih.2.1]
          simp
        · exact ih.2.2
      · simp only [finalizeGone, hc, if_true]
        refine ⟨?_, ?_, ?_⟩
        · simp only [List.countP_cons, hne, ih.1]
          simp
        · simp only [List.countP_cons, hne, ih.2.1]
          simp
        · simp only [List.any_cons, hne, ih.2.2]
          simp

/-- C4 (confirmed): a session that is registered — and picked up by the
daemon's scan on registration (tick 1, or `startDaemon`'s initial scan) — and
then unregistered before the daemon's next tick is finalized on that next
tick exactly once: the tick performs one last `processTranscript` for it,
calls `endSession` for its id exactly once (FINALIZING), and removes it from
the in-memory watch map (CLOSED). -/
theorem unregistered_session_finalized_once (id : String) (ws : WatchedSession)
    (discover : String → Option WatchedSession) (files2 : List String)
    (hdisc : discover id = some ws) (hgone : files2.contains id = false) :
    (scanForSessions files2 discover (scanForSessions [id] discover []).1).2.countP
        (fun e => e == DaemonEvent.ended id) = 1
    ∧ (scanForSessions files2 discover (scanForSessions [id] discover []).1).2.countP
        (fun e => e == DaemonEvent.processed id) = 1
    ∧ (scanForSessions files2 discover (scanForSessions [id] discover []).1).1.any
        (fun p => p.1 == id) = false := by
  have ht1 : (scanForSessions [id] discover []).1 = [(id, ws)] := by
    simp [scanForSessions, discoverNew, hdisc, finalizeGone, List.contains_cons]
  rw [ht1]
  simp only [scanForSessions]
  have hd := discoverNew_frame discover files2 [(id, ws)] id hgone
  have hf := finalizeGone_counts files2 (discoverNew discover files2 [(id, ws)]).1 id hgone
  have hcount1 : List.countP (fun p => p.1 == id) [(id, ws)] = 1 := by simp
  refine ⟨?_, ?_, ?_⟩
  · rw [List.countP_append, hd.2.1, hf.1, hd.1, hcount1]
  · rw [List.countP_append, hd.2.2, hf.2.1, hd.1, hcount1]
  · exact hf.2.2

def c4Session : WatchedSession := ⟨"abc", "/transcripts/abc.jsonl", "/transcripts"⟩

def c4Discover : String → Option WatchedSession := fun sid =>
  if sid == "abc" then some c4Session else none

theorem unregistered_session_finalized_once_witness :
    (c4Discover "abc" = some c4Session)
    ∧ (([] : List String).contains "abc" = false)
    ∧ ((scanForSessions [] c4Discover (scanForSessions ["abc"] c4Discover []).1).2.countP
          (fun e => e == DaemonEvent.ended "abc") = 1
       ∧ (scanForSessions [] c4Discover (scanForSessions ["abc"] c4Discover []).1).2.countP
          (fun e => e == DaemonEvent.processed "abc") = 1
       ∧ (scanForSessions [] c4Discover (scanForSessions ["abc"] c4Discover []).1).1.any
          (fun p => p.1 == "abc") = false) :=
  ⟨by decide, by decide,
    unregistered_session_finalized_once "abc" c4Session c4Discover [] (by decide)
      (by decide)⟩

/-- The poll-loop body of `startDaemon` (watcher.ts lines 506-508): process
every watched session in sequence.  `processTranscript`'s file read and
storage writes can fail at runtime (an fs error after the `existsSync` check,
or a storage statement surfacing an error once the 5-second busy timeout set
by `getDatabase` is exceeded); `proc` abstracts one session's processing,
returning `.error` when it throws.  Neither the loop nor `processTranscript`
installs a `try`/`catch` (the only one in `scanForSessions` wraps new-session
discovery), so in the embedding — as in the code — an exception aborts the
remaining iterations of the loop and escapes the tick. -/
def processAllWatched (proc : String → Db → Except String Db) :
    List String → Db → Except String Db
  | [], db => .ok db
  | sid :: rest, db =>
    match proc sid db with
    | .error e => .error e
    | .ok db2 => processAllWatched proc rest db2

def c5RowOf (sid : String) : MessageRow :=
  ⟨"m-" ++ sid, sid, "t", "user", "ok", none, none, "/p"⟩

/-- A per-session processing function for the failure scenario: session
"bad"'s processing throws (its storage write exceeded the busy timeout), any
other session's processing appends one message. -/
def c5Proc : String → Db → Except String Db := fun sid db =>
  if sid == "bad" then .error "database is locked"
  else .ok { db with messages := db.messages ++ [c5RowOf sid] }

def c5EmptyDb : Db := ⟨[], [], []⟩

/-- C5 (code_bug): when the first watched session's processing raises, the
poll-loop embedding aborts with that error — the second watched session is not
processed in that tick (no trace of it in the outcome) and the exception
escapes the tick's loop (crashing the daemon's interval callback), while the
same loop does process "good" when nothing fails.  The claimed fault
isolation does not exist in the code. -/
theorem poll_tick_fault_not_isolated :
    processAllWatched c5Proc ["bad", "good"] c5EmptyDb = .error "database is locked"
    ∧ processAllWatched c5Proc ["good", "bad"] c5EmptyDb = .error "database is locked"
    ∧ processAllWatched c5Proc ["good"] c5EmptyDb
        = .ok ⟨[], [c5RowOf "good"], []⟩
    ∧ processAllWatched c5Proc ["good", "good2"] c5EmptyDb
        = .ok ⟨[], [c5RowOf "good", c5RowOf "good2"], []⟩ :=
  ⟨rfl, rfl, rfl, rfl⟩
